import Mathlib

/-!
Verification of the 7-e-Mezzo table ledger (src/types.ts, src/App.tsx,
src/components/GameSetup.tsx, src/components/ActiveGame.tsx).

The React component `ActiveGame` owns one `GameState` value and mutates it
through the handlers `startRound`, `handleTransaction`, `performDealerSwitch`,
`updateRoundProgress` and `closeBank`.  Those handlers are embedded below as
pure functions on a `GameState` structure.  Conventions of the embedding:

* Currency amounts are rationals; the source's `toCurrency` helper
  (`Math.round(val * 100) / 100`) becomes `⌊val * 100 + 1/2⌋ / 100`, which is
  exactly JavaScript's round-half-up semantics on the rationals.
* `crypto.randomUUID()` player ids become the player's index at creation time
  (any collision-free id scheme; ids are opaque).  Log-entry ids and
  `Date.now()` timestamps are impure presentation data and are dropped from
  the `GameLog` record; `message`, `type` and `amount` are kept.
* Handlers that return early without calling `setGameState` (invalid amount,
  pot check, unknown challenger) are modelled as `Except.error _`; an error
  value means the component state is left untouched.
* The game-creation path (`GameSetup.handleStart` feeding the initial
  `useState` of `ActiveGame`, plus the `useEffect` that installs the first
  dealer) is embedded as `initGame`.
-/

namespace SetteMezzo

/-- Player record, from src/types.ts. -/
structure Player where
  id : Nat
  name : String
  isDealer : Bool
  roundsPlayed : Nat
deriving DecidableEq, Inhabited

/-- The `type` field of a log entry, from src/types.ts. -/
inductive LogType where
  | ante
  | win
  | loss
  | collect
  | info
deriving DecidableEq

/-- Log entry, from src/types.ts (`id` and `timestamp` dropped, see header). -/
structure GameLog where
  message : String
  type : LogType
  amount : Option ℚ
deriving DecidableEq

/-- The aggregate game state, from src/types.ts.  `logs` is most-recent-first,
as in the source (new entries are prepended). -/
structure GameState where
  players : List Player
  pot : ℚ
  ante : ℚ
  currentDealerId : Option Nat
  roundActive : Bool
  logs : List GameLog
  gameRound : Nat
  playersPlayedThisRound : List Nat
deriving DecidableEq, Inhabited

/-- Outcome argument of a hand: `handleTransaction('player' | 'dealer')`. -/
inductive Outcome where
  | challengerWins
  | dealerWins
deriving DecidableEq

/-- Reasons a hand handler returns without touching the state. -/
inductive RecErr where
  | invalidAmount
  | insufficientPot
  | invalidChallenger
deriving DecidableEq

/-- Reason parameter of `performDealerSwitch` ('collect' | 'sbancato'). -/
inductive SwitchReason where
  | collect
  | sbancato
deriving DecidableEq

/-- ActiveGame.tsx line 34: `Math.round(val * 100) / 100`.  JavaScript's
`Math.round` is round-half-up, i.e. `⌊x + 1/2⌋`; `Rat.floor` is used so the
definition evaluates inside the kernel. -/
def toCurrency (val : ℚ) : ℚ := ((Rat.floor (val * 100 + 1/2) : ℤ) : ℚ) / 100

/-- ActiveGame.tsx line 35: `Math.abs(val) < 0.01`. -/
def isApproximatelyZero (val : ℚ) : Prop := |val| < 1/100

instance (val : ℚ) : Decidable (isApproximatelyZero val) :=
  inferInstanceAs (Decidable (|val| < 1/100))

/-- Two-decimal rendering used inside log messages (`toFixed(2)`). -/
def fixed2 (q : ℚ) : String :=
  let c : ℤ := Rat.floor (q * 100 + 1/2)
  let a := c.natAbs
  (if c < 0 then "-" else "") ++ toString (a / 100) ++ "." ++
    (if a % 100 < 10 then "0" else "") ++ toString (a % 100)

/-- Log entry appended by `startRound` (ActiveGame.tsx line 112). -/
def anteLogEntry (ante totalAnte : ℚ) : GameLog :=
  { message := "Tutti pagano la puntata iniziale (€" ++ fixed2 ante ++ ")"
    type := LogType.ante
    amount := some totalAnte }

/-- Log entry prepended on a normal challenger win (ActiveGame.tsx 197-203). -/
def lossLogEntry (challengerName : String) (amount : ℚ) : GameLog :=
  { message := challengerName ++ " vince la mano contro il banco"
    type := LogType.loss
    amount := some (-amount) }

/-- Log entry prepended on a dealer win (ActiveGame.tsx 214-220). -/
def winLogEntry (challengerName : String) (amount : ℚ) : GameLog :=
  { message := challengerName ++ " perde. Paga al piatto"
    type := LogType.win
    amount := some amount }

/-- Orbit-completion info entry (ActiveGame.tsx 249-254). -/
def orbitLog (newGameRound : Nat) : GameLog :=
  { message := "Tutti i giocatori hanno giocato. Inizia il Giro " ++
      toString newGameRound ++ " per questo mazziere."
    type := LogType.info
    amount := none }

/-- The two entries pushed by the 'sbancato' branch of `performDealerSwitch`
(ActiveGame.tsx 125-140): rotation entry first, hand-result entry second. -/
def sbancatoLogs (challengerName nextDealerName : String) (finalPot : ℚ) :
    List GameLog :=
  [ { message := "SBANCATO! " ++ challengerName ++
        " svuota il piatto. Il turno passa a " ++ nextDealerName ++ "."
      type := LogType.loss
      amount := some (-finalPot) }
  , { message := challengerName ++ " vince la mano contro il banco"
      type := LogType.loss
      amount := some (-finalPot) } ]

/-- The entry pushed by the 'collect' branch (ActiveGame.tsx 142-148). -/
def collectLogEntry (dealerName : String) (finalPot : ℚ) : GameLog :=
  { message := "Fine turno! " ++ dealerName ++ " incassa il piatto rimanente"
    type := LogType.collect
    amount := some finalPot }

/-- `players.findIndex(p => p.id === gameState.currentDealerId)`
(ActiveGame.tsx line 117); JavaScript's `-1` on a miss is kept. -/
def dealerIdxInt (s : GameState) : ℤ :=
  match s.players.findIdx? (fun p => decide (s.currentDealerId = some p.id)) with
  | some i => (i : ℤ)
  | none => -1

/-- ActiveGame.tsx 116-168, `performDealerSwitch`: rotate the dealer to the
next index (wrap-around), zero the pot, end the round, reset the orbit
counter and the played set, push the reason's log entries. -/
def performDealerSwitch (s : GameState) (reason : SwitchReason)
    (finalPot : ℚ) (challengerName : String) : GameState :=
  let currentIdx := dealerIdxInt s
  let nextIdx := ((currentIdx + 1) % (s.players.length : ℤ)).toNat
  let nextDealer := s.players.getD nextIdx default
  let currentDealer := s.players.getD currentIdx.toNat default
  let newLogs : List GameLog :=
    match reason with
    | SwitchReason.sbancato => sbancatoLogs challengerName nextDealer.name finalPot
    | SwitchReason.collect => [collectLogEntry currentDealer.name finalPot]
  { s with
    pot := 0
    roundActive := false
    currentDealerId := some nextDealer.id
    gameRound := 1
    playersPlayedThisRound := []
    players := s.players.map (fun p => { p with isDealer := decide (p.id = nextDealer.id) })
    logs := newLogs ++ s.logs }

/-- ActiveGame.tsx 233-263, `updateRoundProgress`: add the challenger to the
played set if absent; on a full orbit bump `gameRound`, clear the set and
push an info entry. -/
def updateRoundProgress (state : GameState) (currentPlayerId : Nat) : GameState :=
  let updatedPlayed :=
    if currentPlayerId ∈ state.playersPlayedThisRound then
      state.playersPlayedThisRound
    else
      state.playersPlayedThisRound ++ [currentPlayerId]
  let numberOfChallengers := state.players.length - 1
  if numberOfChallengers ≤ updatedPlayed.length then
    { state with
      gameRound := state.gameRound + 1
      playersPlayedThisRound := []
      logs := orbitLog (state.gameRound + 1) :: state.logs }
  else
    { state with playersPlayedThisRound := updatedPlayed }

/-- ActiveGame.tsx 101-113, `startRound`: collect the ante from every player,
activate the round, log it.  (The first-challenger hint it also computes is
component-local UI state, not part of `GameState`.) -/
def startRound (s : GameState) : GameState :=
  let totalAnte := toCurrency ((s.players.length : ℚ) * s.ante)
  { s with
    pot := toCurrency (s.pot + totalAnte)
    roundActive := true
    logs := anteLogEntry s.ante totalAnte :: s.logs }

/-- ActiveGame.tsx 170-230, `handleTransaction`.  The checks appear in source
order: amount parse/positivity, the challenger-wins pot bound, the challenger
lookup.  Note the handler checks neither `roundActive` nor that the
challenger differs from the dealer. -/
def recordHand (s : GameState) (cid : Nat) (amount : ℚ) (winner : Outcome) :
    Except RecErr GameState :=
  if amount ≤ 0 then Except.error RecErr.invalidAmount
  else if winner = Outcome.challengerWins ∧ 1/100 < amount - s.pot then
    Except.error RecErr.insufficientPot
  else
    match s.players.find? (fun p => decide (p.id = cid)) with
    | none => Except.error RecErr.invalidChallenger
    | some challenger =>
      match winner with
      | Outcome.challengerWins =>
        let remainingPot := toCurrency (s.pot - amount)
        if isApproximatelyZero remainingPot then
          Except.ok (performDealerSwitch s SwitchReason.sbancato amount challenger.name)
        else
          Except.ok (updateRoundProgress
            { s with pot := remainingPot
                     logs := lossLogEntry challenger.name amount :: s.logs }
            challenger.id)
      | Outcome.dealerWins =>
        Except.ok (updateRoundProgress
          { s with pot := toCurrency (s.pot + amount)
                   logs := winLogEntry challenger.name amount :: s.logs }
          challenger.id)

/-- ActiveGame.tsx 265-268, `closeBank`: guard on `getCurrentDealer()`, then
rotate with reason 'collect' and the whole pot (the unused challenger-name
parameter is passed as the empty string). -/
def closeBank (s : GameState) : Option GameState :=
  match s.players.find? (fun p => decide (s.currentDealerId = some p.id)) with
  | none => none
  | some _ => some (performDealerSwitch s SwitchReason.collect s.pot
      (String.mk []))

/-- Game creation: `GameSetup.handleStart` (GameSetup.tsx 52-56) only starts
when at least two names are present (the ante is not validated), and
`ActiveGame`'s initial `useState` (ActiveGame.tsx 12-26) together with the
first-dealer `useEffect` (38-42) builds this state. -/
def initGame (names : List String) (ante : ℚ) : Option GameState :=
  if 2 ≤ names.length then
    some
      { players := names.enum.map (fun pr =>
          { id := pr.1, name := pr.2, isDealer := decide (pr.1 = 0), roundsPlayed := 0 })
        pot := 0
        ante := ante
        currentDealerId := some 0
        roundActive := false
        logs := []
        gameRound := 1
        playersPlayedThisRound := [] }
  else none

/-- One hand request, as fed to `handleTransaction`. -/
structure Call where
  cid : Nat
  amount : ℚ
  outcome : Outcome

/-- Run a list of hands, requiring every hand to be accepted and non-bust
(a bust sets `roundActive := false`, stopping the run). -/
def runNB : GameState → List Call → Option GameState
  | s, [] => some s
  | s, c :: cs =>
    match recordHand s c.cid c.amount c.outcome with
    | Except.error _ => none
    | Except.ok s' => if s'.roundActive then runNB s' cs else none

/-- Ids of the players other than the current dealer, in table order. -/
def challengerIds (s : GameState) : List Nat :=
  (s.players.filter (fun p => !decide (s.currentDealerId = some p.id))).map Player.id

/-- States reachable through the embedded operations, starting from a game
created with at least two names and a positive ante (the spec's stated
precondition; the code itself does not check the ante, see C5). Handler
calls that error leave the state unchanged and need no step. -/
inductive Reach : GameState → Prop where
  | init (names : List String) (ante : ℚ) (s : GameState) :
      0 < ante → initGame names ante = some s → Reach s
  | start (s : GameState) : Reach s → Reach (startRound s)
  | record (s : GameState) (cid : Nat) (a : ℚ) (w : Outcome) (s' : GameState) :
      Reach s → recordHand s cid a w = Except.ok s' → Reach s'
  | close (s s' : GameState) :
      Reach s → closeBank s = some s' → Reach s'

/-- Like `Reach`, but every hand names a challenger other than the current
dealer (the discipline the presentation layer's selector enforces). -/
inductive ReachND : GameState → Prop where
  | init (names : List String) (ante : ℚ) (s : GameState) :
      0 < ante → initGame names ante = some s → ReachND s
  | start (s : GameState) : ReachND s → ReachND (startRound s)
  | record (s : GameState) (cid : Nat) (a : ℚ) (w : Outcome) (s' : GameState) :
      ReachND s → s.currentDealerId ≠ some cid →
      recordHand s cid a w = Except.ok s' → ReachND s'
  | close (s s' : GameState) :
      ReachND s → closeBank s = some s' → ReachND s'

/-! ### Arithmetic facts about `toCurrency` -/

theorem ratFloor_eq_intFloor (q : ℚ) : Rat.floor q = ⌊q⌋ := by
  rw [Rat.floor_def' q, Rat.floor_def]

theorem toCurrency_def' (x : ℚ) :
    toCurrency x = ((⌊x * 100 + 1/2⌋ : ℤ) : ℚ) / 100 := by
  rw [toCurrency, ratFloor_eq_intFloor]

theorem toCurrency_eq (x : ℚ) (m : ℤ) (h1 : (m : ℚ) ≤ x * 100 + 1/2)
    (h2 : x * 100 + 1/2 < m + 1) : toCurrency x = (m : ℚ) / 100 := by
  rw [toCurrency_def']
  congr 2
  rw [Int.floor_eq_iff]
  constructor
  · exact h1
  · exact_mod_cast h2

theorem toCurrency_le (x : ℚ) : toCurrency x ≤ x + 1/200 := by
  rw [toCurrency_def', div_le_iff₀ (by norm_num : (0:ℚ) < 100)]
  have h := Int.floor_le (x * 100 + 1/2)
  linarith

theorem lt_toCurrency (x : ℚ) : x - 1/200 < toCurrency x := by
  rw [toCurrency_def', lt_div_iff₀ (by norm_num : (0:ℚ) < 100)]
  have h := Int.lt_floor_add_one (x * 100 + 1/2)
  linarith

theorem toCurrency_mono {x y : ℚ} (h : x ≤ y) : toCurrency x ≤ toCurrency y := by
  rw [toCurrency_def', toCurrency_def']
  have hf : ⌊x * 100 + 1/2⌋ ≤ ⌊y * 100 + 1/2⌋ :=
    Int.floor_le_floor (by linarith)
  have : ((⌊x * 100 + 1/2⌋ : ℤ) : ℚ) ≤ ((⌊y * 100 + 1/2⌋ : ℤ) : ℚ) := by
    exact_mod_cast hf
  linarith

theorem toCurrency_zero : toCurrency 0 = 0 := by
  have h := toCurrency_eq 0 0 (by norm_num) (by norm_num)
  rw [h]; norm_num

theorem toCurrency_neg_cent : toCurrency (-(1/100)) = -(1/100) := by
  have h := toCurrency_eq (-(1/100)) (-1) (by norm_num) (by norm_num)
  rw [h]; norm_num

/-- If the rounded value is within the 0.01 tolerance of zero then the raw
value was at least `-1/200` (so the pot-bound check was already satisfied). -/
theorem approx_zero_bound {x : ℚ} (h : isApproximatelyZero (toCurrency x)) :
    -(1/200) ≤ x := by
  rw [isApproximatelyZero, toCurrency_def', abs_lt] at h
  obtain ⟨h1, h2⟩ := h
  have hm1 : (-1 : ℚ) < (⌊x * 100 + 1/2⌋ : ℤ) := by
    have := h1; nlinarith
  have hm2 : ((⌊x * 100 + 1/2⌋ : ℤ) : ℚ) < 1 := by nlinarith
  have hz : ⌊x * 100 + 1/2⌋ = 0 := by
    have a1 : (-1 : ℤ) < ⌊x * 100 + 1/2⌋ := by exact_mod_cast hm1
    have a2 : ⌊x * 100 + 1/2⌋ < 1 := by exact_mod_cast hm2
    omega
  have hge : (0 : ℚ) ≤ x * 100 + 1/2 := by
    have := Int.floor_le (x * 100 + 1/2)
    rw [hz] at this
    exact_mod_cast this
  linarith

/-! ### Structural lemmas about the operations -/

theorem urp_players (t : GameState) (c : Nat) :
    (updateRoundProgress t c).players = t.players := by
  simp only [updateRoundProgress]; split <;> split <;> rfl

theorem urp_pot (t : GameState) (c : Nat) :
    (updateRoundProgress t c).pot = t.pot := by
  simp only [updateRoundProgress]; split <;> split <;> rfl

theorem urp_ante (t : GameState) (c : Nat) :
    (updateRoundProgress t c).ante = t.ante := by
  simp only [updateRoundProgress]; split <;> split <;> rfl

theorem urp_roundActive (t : GameState) (c : Nat) :
    (updateRoundProgress t c).roundActive = t.roundActive := by
  simp only [updateRoundProgress]; split <;> split <;> rfl

theorem urp_currentDealerId (t : GameState) (c : Nat) :
    (updateRoundProgress t c).currentDealerId = t.currentDealerId := by
  simp only [updateRoundProgress]; split <;> split <;> rfl

theorem urp_played_length_le (t : GameState) (c : Nat) :
    (updateRoundProgress t c).playersPlayedThisRound.length ≤
      t.players.length - 1 := by
  simp only [updateRoundProgress]
  split
  · split
    · simp
    · next h => exact Nat.le_of_lt (Nat.lt_of_not_le h)
  · split
    · simp
    · next h => exact Nat.le_of_lt (Nat.lt_of_not_le h)

theorem urp_played_mem {t : GameState} {c x : Nat}
    (hx : x ∈ (updateRoundProgress t c).playersPlayedThisRound) :
    x ∈ t.playersPlayedThisRound ∨ x = c := by
  simp only [updateRoundProgress] at hx
  split at hx
  · split at hx
    · simp at hx
    · exact Or.inl hx
  · split at hx
    · simp at hx
    · rcases List.mem_append.mp hx with h | h
      · exact Or.inl h
      · exact Or.inr (List.mem_singleton.mp h)

theorem urp_fresh_no_trigger {t : GameState} {c : Nat}
    (h1 : c ∉ t.playersPlayedThisRound)
    (h2 : t.playersPlayedThisRound.length + 1 < t.players.length - 1) :
    updateRoundProgress t c =
      { t with playersPlayedThisRound := t.playersPlayedThisRound ++ [c] } := by
  rw [updateRoundProgress]
  simp only [if_neg h1]
  rw [if_neg]
  simp only [List.length_append, List.length_singleton]
  omega

theorem urp_fresh_trigger {t : GameState} {c : Nat}
    (h1 : c ∉ t.playersPlayedThisRound)
    (h2 : t.players.length - 1 ≤ t.playersPlayedThisRound.length + 1) :
    updateRoundProgress t c =
      { t with gameRound := t.gameRound + 1
               playersPlayedThisRound := []
               logs := orbitLog (t.gameRound + 1) :: t.logs } := by
  rw [updateRoundProgress]
  simp only [if_neg h1]
  rw [if_pos]
  simp only [List.length_append, List.length_singleton]
  omega

theorem urp_dup {t : GameState} {c : Nat}
    (h1 : c ∈ t.playersPlayedThisRound)
    (h2 : t.playersPlayedThisRound.length < t.players.length - 1) :
    updateRoundProgress t c = t := by
  rw [updateRoundProgress]
  simp only [if_pos h1]
  rw [if_neg (Nat.not_le.mpr h2)]

theorem pds_pot (s : GameState) (r : SwitchReason) (fp : ℚ) (nm : String) :
    (performDealerSwitch s r fp nm).pot = 0 := rfl

theorem pds_roundActive (s : GameState) (r : SwitchReason) (fp : ℚ) (nm : String) :
    (performDealerSwitch s r fp nm).roundActive = false := rfl

theorem pds_gameRound (s : GameState) (r : SwitchReason) (fp : ℚ) (nm : String) :
    (performDealerSwitch s r fp nm).gameRound = 1 := rfl

theorem pds_played (s : GameState) (r : SwitchReason) (fp : ℚ) (nm : String) :
    (performDealerSwitch s r fp nm).playersPlayedThisRound = [] := rfl

theorem pds_ante (s : GameState) (r : SwitchReason) (fp : ℚ) (nm : String) :
    (performDealerSwitch s r fp nm).ante = s.ante := rfl

/-- The index the rotation moves the dealer role to. -/
def nextDealerIdx (s : GameState) : Nat :=
  ((dealerIdxInt s + 1) % (s.players.length : ℤ)).toNat

theorem pds_currentDealerId (s : GameState) (r : SwitchReason) (fp : ℚ) (nm : String) :
    (performDealerSwitch s r fp nm).currentDealerId =
      some ((s.players.getD (nextDealerIdx s) default).id) := rfl

theorem pds_players (s : GameState) (r : SwitchReason) (fp : ℚ) (nm : String) :
    (performDealerSwitch s r fp nm).players =
      s.players.map (fun p =>
        { p with isDealer :=
            decide (p.id = (s.players.getD (nextDealerIdx s) default).id) }) := rfl

theorem pds_logs_sbancato (s : GameState) (fp : ℚ) (nm : String) :
    (performDealerSwitch s SwitchReason.sbancato fp nm).logs =
      sbancatoLogs nm (s.players.getD (nextDealerIdx s) default).name fp ++ s.logs := rfl

theorem pds_logs_collect (s : GameState) (fp : ℚ) (nm : String) :
    (performDealerSwitch s SwitchReason.collect fp nm).logs =
      collectLogEntry (s.players.getD (dealerIdxInt s).toNat default).name fp
        :: s.logs := rfl

/-- When the dealer lookup used by the rotation succeeds at index `i`, the
rotation target is the next index, wrapping around. -/
theorem nextDealerIdx_eq {s : GameState} {i : Nat}
    (hidx : s.players.findIdx? (fun p => decide (s.currentDealerId = some p.id))
      = some i) :
    nextDealerIdx s = (i + 1) % s.players.length := by
  rw [nextDealerIdx, dealerIdxInt, hidx]
  have h1 : ((i : ℤ) + 1) = ((i + 1 : Nat) : ℤ) := by push_cast; ring
  rw [h1, ← Int.ofNat_emod, Int.toNat_ofNat]

theorem startRound_players (s : GameState) : (startRound s).players = s.players := rfl
theorem startRound_ante (s : GameState) : (startRound s).ante = s.ante := rfl
theorem startRound_roundActive (s : GameState) : (startRound s).roundActive = true := rfl
theorem startRound_pot (s : GameState) :
    (startRound s).pot =
      toCurrency (s.pot + toCurrency ((s.players.length : ℚ) * s.ante)) := rfl
theorem startRound_currentDealerId (s : GameState) :
    (startRound s).currentDealerId = s.currentDealerId := rfl
theorem startRound_played (s : GameState) :
    (startRound s).playersPlayedThisRound = s.playersPlayedThisRound := rfl
theorem startRound_gameRound (s : GameState) :
    (startRound s).gameRound = s.gameRound := rfl

theorem initGame_some {names : List String} {ante : ℚ} {s : GameState}
    (h : initGame names ante = some s) :
    s.pot = 0 ∧ s.ante = ante ∧ s.playersPlayedThisRound = [] ∧
    s.currentDealerId = some 0 ∧ s.roundActive = false ∧
    2 ≤ s.players.length ∧ s.gameRound = 1 := by
  rw [initGame] at h
  split at h
  · next hlen =>
    injection h with h
    subst h
    refine ⟨rfl, rfl, rfl, rfl, rfl, ?_, rfl⟩
    simpa using hlen
  · exact absurd h (by simp)

theorem closeBank_some {s s' : GameState} (h : closeBank s = some s') :
    s' = performDealerSwitch s SwitchReason.collect s.pot (String.mk []) := by
  rw [closeBank] at h
  split at h
  · exact absurd h (by simp)
  · injection h with h
    exact h.symm

/-! ### Forward evaluation lemmas for `recordHand` -/

theorem recordHand_dw_eq {s : GameState} {cid : Nat} {a : ℚ} {ch : Player}
    (hamt : 0 < a)
    (hfind : s.players.find? (fun p => decide (p.id = cid)) = some ch) :
    recordHand s cid a Outcome.dealerWins =
      Except.ok (updateRoundProgress
        { s with pot := toCurrency (s.pot + a)
                 logs := winLogEntry ch.name a :: s.logs } ch.id) := by
  rw [recordHand, if_neg (not_le.mpr hamt), if_neg (by rintro ⟨h, -⟩; cases h),
    hfind]

theorem recordHand_cw_nobust_eq {s : GameState} {cid : Nat} {a : ℚ} {ch : Player}
    (hamt : 0 < a) (hpot : ¬ 1/100 < a - s.pot)
    (hfind : s.players.find? (fun p => decide (p.id = cid)) = some ch)
    (hnb : ¬ isApproximatelyZero (toCurrency (s.pot - a))) :
    recordHand s cid a Outcome.challengerWins =
      Except.ok (updateRoundProgress
        { s with pot := toCurrency (s.pot - a)
                 logs := lossLogEntry ch.name a :: s.logs } ch.id) := by
  rw [recordHand, if_neg (not_le.mpr hamt), if_neg (by rintro ⟨-, h⟩; exact hpot h),
    hfind]
  simp only [if_neg hnb]

theorem recordHand_cw_bust_eq {s : GameState} {cid : Nat} {a : ℚ} {ch : Player}
    (hamt : 0 < a)
    (hfind : s.players.find? (fun p => decide (p.id = cid)) = some ch)
    (hb : isApproximatelyZero (toCurrency (s.pot - a))) :
    recordHand s cid a Outcome.challengerWins =
      Except.ok (performDealerSwitch s SwitchReason.sbancato a ch.name) := by
  have hpot : ¬ 1/100 < a - s.pot := by
    have := approx_zero_bound hb
    intro hlt
    linarith
  rw [recordHand, if_neg (not_le.mpr hamt), if_neg (by rintro ⟨-, h⟩; exact hpot h),
    hfind]
  simp only [if_pos hb]

/-- Complete case analysis of a successful `recordHand` call. -/
theorem recordHand_ok_spec {s : GameState} {cid : Nat} {a : ℚ} {w : Outcome}
    {s' : GameState} (h : recordHand s cid a w = Except.ok s') :
    0 < a ∧ ∃ ch, s.players.find? (fun p => decide (p.id = cid)) = some ch ∧
      ch.id = cid ∧
      ((w = Outcome.challengerWins ∧ isApproximatelyZero (toCurrency (s.pot - a)) ∧
          s' = performDealerSwitch s SwitchReason.sbancato a ch.name) ∨
       (w = Outcome.challengerWins ∧
          ¬ isApproximatelyZero (toCurrency (s.pot - a)) ∧
          ¬ 1/100 < a - s.pot ∧
          s' = updateRoundProgress
            { s with pot := toCurrency (s.pot - a)
                     logs := lossLogEntry ch.name a :: s.logs } cid) ∨
       (w = Outcome.dealerWins ∧
          s' = updateRoundProgress
            { s with pot := toCurrency (s.pot + a)
                     logs := winLogEntry ch.name a :: s.logs } cid)) := by
  rw [recordHand] at h
  split at h
  · exact absurd h (by simp)
  · next hamt =>
    split at h
    · exact absurd h (by simp)
    · next hpot =>
      refine ⟨not_le.mp hamt, ?_⟩
      cases hfind : s.players.find? (fun p => decide (p.id = cid)) with
      | none => rw [hfind] at h; exact absurd h (by simp)
      | some ch =>
        rw [hfind] at h
        have hdec := List.find?_some hfind
        have hchid : ch.id = cid := of_decide_eq_true hdec
        refine ⟨ch, rfl, hchid, ?_⟩
        cases w with
        | challengerWins =>
          simp only at h
          split at h
          · next hb =>
            injection h with h
            exact Or.inl ⟨rfl, hb, h.symm⟩
          · next hnb =>
            injection h with h
            refine Or.inr (Or.inl ⟨rfl, hnb, ?_, ?_⟩)
            · intro hlt; exact hpot ⟨rfl, hlt⟩
            · rw [← h, hchid]
        | dealerWins =>
          simp only at h
          injection h with h
          exact Or.inr (Or.inr ⟨rfl, by rw [← h, hchid]⟩)

/-- Convenience form of `toCurrency_eq` with the target value normalised. -/
theorem toCurrency_eq' (x : ℚ) (m : ℤ) (y : ℚ) (h1 : (m : ℚ) ≤ x * 100 + 1/2)
    (h2 : x * 100 + 1/2 < m + 1) (h3 : (m : ℚ) / 100 = y) : toCurrency x = y := by
  rw [toCurrency_eq x m h1 h2, h3]

/-- Invariant carried by every reachable state: the ante stays positive and
the pot never drops below `-0.01`. -/
theorem reach_inv {s : GameState} (h : Reach s) : 0 < s.ante ∧ -(1/100) ≤ s.pot := by
  induction h with
  | init names ante s hante hinit =>
    obtain ⟨hp, ha, -⟩ := initGame_some hinit
    rw [hp, ha]
    exact ⟨hante, by norm_num⟩
  | start s hr ih =>
    refine ⟨ih.1, ?_⟩
    rw [startRound_pot]
    have h1 : (0:ℚ) ≤ (s.players.length : ℚ) * s.ante :=
      mul_nonneg (by positivity) (le_of_lt ih.1)
    have h2 : (0:ℚ) ≤ toCurrency ((s.players.length : ℚ) * s.ante) := by
      have := toCurrency_mono h1
      rwa [toCurrency_zero] at this
    have h3 : -(1/100 : ℚ) ≤ s.pot + toCurrency ((s.players.length : ℚ) * s.ante) := by
      linarith [ih.2]
    calc -(1/100 : ℚ) = toCurrency (-(1/100)) := toCurrency_neg_cent.symm
      _ ≤ _ := toCurrency_mono h3
  | record s cid a w s' hr hrec ih =>
    obtain ⟨hamt, ch, hfind, hchid, hcase⟩ := recordHand_ok_spec hrec
    rcases hcase with ⟨-, -, hs'⟩ | ⟨-, -, hpot, hs'⟩ | ⟨-, hs'⟩
    · subst hs'
      exact ⟨by rw [pds_ante]; exact ih.1, by rw [pds_pot]; norm_num⟩
    · subst hs'
      refine ⟨by rw [urp_ante]; exact ih.1, ?_⟩
      rw [urp_pot]
      show -(1/100 : ℚ) ≤ toCurrency (s.pot - a)
      have hge : -(1/100 : ℚ) ≤ s.pot - a := by
        have := not_lt.mp hpot
        linarith
      calc -(1/100 : ℚ) = toCurrency (-(1/100)) := toCurrency_neg_cent.symm
        _ ≤ _ := toCurrency_mono hge
    · subst hs'
      refine ⟨by rw [urp_ante]; exact ih.1, ?_⟩
      rw [urp_pot]
      show -(1/100 : ℚ) ≤ toCurrency (s.pot + a)
      have hge : -(1/100 : ℚ) ≤ s.pot + a := by linarith [ih.2]
      calc -(1/100 : ℚ) = toCurrency (-(1/100)) := toCurrency_neg_cent.symm
        _ ≤ _ := toCurrency_mono hge
  | close s s' hr hc ih =>
    rw [closeBank_some hc]
    exact ⟨by rw [pds_ante]; exact ih.1, by rw [pds_pot]; norm_num⟩

/-! ### Concrete states used by counterexamples and witnesses -/

/-- Fresh two-player game with ante 0.50. -/
def c1s0 : GameState := (initGame [r"A", r"B"] (1/2)).getD default

/-- After `startRound`: pot 1.00, round active. -/
def c1s1 : GameState := startRound c1s0

/-- Result of a challenger win of 1.01 against a pot of 1.00: the tolerance
check passes (1.01 - 1.00 = 0.01 is not > 0.01), the remaining pot rounds to
exactly -0.01, which is not approximately zero, so it is stored. -/
def c1bad : GameState :=
  updateRoundProgress
    { c1s1 with
      pot := toCurrency (c1s1.pot - 101/100)
      logs := lossLogEntry (Player.name ⟨1, r"B", false, 0⟩) (101/100) :: c1s1.logs }
    (Player.id ⟨1, r"B", false, 0⟩)

theorem c1s1_pot : c1s1.pot = 1 := by
  have h0 : c1s1.pot = toCurrency (0 + toCurrency (((2:ℕ) : ℚ) * (1/2))) := rfl
  have e1 : toCurrency (((2:ℕ) : ℚ) * (1/2)) = 1 :=
    toCurrency_eq' _ 100 _ (by push_cast; norm_num) (by push_cast; norm_num)
      (by norm_num)
  rw [h0, e1]
  exact toCurrency_eq' _ 100 _ (by norm_num) (by norm_num) (by norm_num)

/-- C1 (corrected), counterexample: the state reached by
`initialize ["A","B"] 0.50; startRound; recordHand(B, 1.01, challengerWins)`
passes every accepted validation check yet has `pot = -0.01 < 0`. -/
theorem claim1_counterexample : Reach c1bad ∧ c1bad.pot < 0 := by
  have hfind : c1s1.players.find? (fun p => decide (p.id = 1)) =
      some ⟨1, r"B", false, 0⟩ := rfl
  have hrem : toCurrency (c1s1.pot - 101/100) = -(1/100) := by
    rw [c1s1_pot]
    exact toCurrency_eq' _ (-1) _ (by norm_num) (by norm_num) (by norm_num)
  have hnb : ¬ isApproximatelyZero (toCurrency (c1s1.pot - 101/100)) := by
    rw [hrem]
    simp only [isApproximatelyZero, abs_lt, not_and_or, not_lt]
    left; norm_num
  have hpotcheck : ¬ (1/100 : ℚ) < 101/100 - c1s1.pot := by
    rw [c1s1_pot]; norm_num
  have hrec : recordHand c1s1 1 (101/100) Outcome.challengerWins =
      Except.ok c1bad :=
    recordHand_cw_nobust_eq (by norm_num) hpotcheck hfind hnb
  refine ⟨Reach.record c1s1 1 (101/100) Outcome.challengerWins c1bad
    (Reach.start c1s0 (Reach.init [r"A", r"B"] (1/2) c1s0 (by norm_num) rfl))
    hrec, ?_⟩
  have hp : c1bad.pot = toCurrency (c1s1.pot - 101/100) := urp_pot _ _
  rw [hp, hrem]
  norm_num

/-- C1 (amended): for every reachable state — operations with inputs passing
the code's accepted checks, from a game initialised with a positive ante —
the pot never drops below -0.01; the original bound `pot ≥ 0` fails (see the
counterexample), and -0.01 is exactly attainable. -/
theorem claim1_pot_lower_bound (s : GameState) (h : Reach s) :
    -(1/100) ≤ s.pot :=
  (reach_inv h).2

theorem claim1_pot_lower_bound_witness : -(1/100 : ℚ) ≤ c1s0.pot :=
  claim1_pot_lower_bound c1s0
    (Reach.init [r"A", r"B"] (1/2) c1s0 (by norm_num) rfl)

/-- C3 (confirmed): a challenger-wins hand whose (positive) amount exceeds
the pot by more than 0.01 is rejected with `InsufficientPot`; the handler
returns before touching the state, so nothing changes and no log entry is
added. -/
theorem claim3_insufficient_pot (s : GameState) (cid : Nat) (a : ℚ)
    (hamt : 0 < a) (hover : 1/100 < a - s.pot) :
    recordHand s cid a Outcome.challengerWins =
      Except.error RecErr.insufficientPot := by
  rw [recordHand, if_neg (not_le.mpr hamt), if_pos ⟨rfl, hover⟩]

theorem claim3_insufficient_pot_witness :
    recordHand c1s0 1 1 Outcome.challengerWins =
      Except.error RecErr.insufficientPot := by
  have h1 : (1:ℚ)/100 < 1 - c1s0.pot := by
    have h0 : c1s0.pot = 0 := rfl
    rw [h0]; norm_num
  exact claim3_insufficient_pot c1s0 1 1 (by norm_num) h1

/-- C5 (corrected), counterexample: game creation with ante 0 succeeds — a
game state is produced even though the claim requires `InvalidSetup`. -/
theorem claim5_counterexample :
    (initGame [r"A", r"B"] 0).isSome = true ∧ (0:ℚ) ≤ 0 :=
  ⟨rfl, le_refl 0⟩

/-- C5 (amended): game creation fails exactly when fewer than two names are
given (silently, with no game state and no surfaced error); the ante is not
validated anywhere — a zero or negative ante produces a game state. -/
theorem claim5_player_count_only (names : List String) (ante : ℚ) :
    (initGame names ante).isSome = true ↔ 2 ≤ names.length := by
  rw [initGame]
  split <;> simp_all

/-- Fresh game state reached by `recordHand(B, 0.20, dealerWins)` issued
against `c1s0`, whose round is not active. -/
def c6bad : GameState :=
  updateRoundProgress
    { c1s0 with
      pot := toCurrency (c1s0.pot + 1/5)
      logs := winLogEntry (Player.name ⟨1, r"B", false, 0⟩) (1/5) :: c1s0.logs }
    (Player.id ⟨1, r"B", false, 0⟩)

/-- C6 (corrected), counterexample: with `roundActive = false` the handler
does not fail with `NoActiveRound` — it succeeds and changes the pot. -/
theorem claim6_counterexample :
    c1s0.roundActive = false ∧
    recordHand c1s0 1 (1/5) Outcome.dealerWins = Except.ok c6bad ∧
    c6bad.pot ≠ c1s0.pot := by
  refine ⟨rfl, recordHand_dw_eq (by norm_num) rfl, ?_⟩
  have hp : c6bad.pot = toCurrency (c1s0.pot + 1/5) := urp_pot _ _
  have h0 : c1s0.pot = 0 := rfl
  rw [hp, h0]
  have : toCurrency ((0:ℚ) + 1/5) = 1/5 :=
    toCurrency_eq' _ 20 _ (by norm_num) (by norm_num) (by norm_num)
  rw [this]
  norm_num

/-- C6 (amended): the hand handler performs no `roundActive` check at all —
called with valid inputs while `roundActive` is false it processes the hand
normally (here: dealer wins, pot increases); the only guard is that the
presentation layer does not render the hand form while the round is
inactive, and no `NoActiveRound` error kind exists in the code. -/
theorem claim6_no_round_check (s : GameState) (cid : Nat) (a : ℚ) (ch : Player)
    (hra : s.roundActive = false) (hamt : 0 < a)
    (hfind : s.players.find? (fun p => decide (p.id = cid)) = some ch) :
    ∃ s', recordHand s cid a Outcome.dealerWins = Except.ok s' ∧
      s'.pot = toCurrency (s.pot + a) ∧ s'.roundActive = false := by
  refine ⟨_, recordHand_dw_eq hamt hfind, urp_pot _ _, ?_⟩
  rw [urp_roundActive]
  exact hra

theorem claim6_no_round_check_witness :
    ∃ s', recordHand c1s0 1 (1/5) Outcome.dealerWins = Except.ok s' ∧
      s'.pot = toCurrency (c1s0.pot + 1/5) ∧ s'.roundActive = false :=
  claim6_no_round_check c1s0 1 (1/5) ⟨1, r"B", false, 0⟩ rfl (by norm_num) rfl

theorem sbancatoLogs_shape (nm1 nm2 : String) (fp : ℚ) :
    ∃ e₁ e₂, sbancatoLogs nm1 nm2 fp = [e₁, e₂] ∧
      e₁.type = LogType.loss ∧ e₁.amount = some (-fp) ∧
      e₂.type = LogType.loss ∧ e₂.amount = some (-fp) :=
  ⟨_, _, rfl, rfl, rfl, rfl, rfl⟩

/-- C2 (confirmed): a challenger win whose amount brings the pot to within
0.01 of zero busts the bank: the pot is zeroed, the round ends, the dealer
role advances to the next player in turn order (wrapping around), the orbit
counter resets to 1, the played set empties (orbit bookkeeping is skipped),
and exactly two loss-kind entries carrying `-amount` are prepended above the
old log. -/
theorem claim2_bust_rotation (s : GameState) (cid : Nat) (a : ℚ) (ch : Player)
    (i : Nat) (hra : s.roundActive = true) (hamt : 0 < a)
    (hfind : s.players.find? (fun p => decide (p.id = cid)) = some ch)
    (hidx : s.players.findIdx? (fun p => decide (s.currentDealerId = some p.id))
      = some i)
    (hb : isApproximatelyZero (toCurrency (s.pot - a))) :
    ∃ s', recordHand s cid a Outcome.challengerWins = Except.ok s' ∧
      s'.pot = 0 ∧ s'.roundActive = false ∧
      s'.currentDealerId =
        some ((s.players.getD ((i + 1) % s.players.length) default).id) ∧
      s'.gameRound = 1 ∧ s'.playersPlayedThisRound = [] ∧
      ∃ e₁ e₂, s'.logs = e₁ :: e₂ :: s.logs ∧
        e₁.type = LogType.loss ∧ e₁.amount = some (-a) ∧
        e₂.type = LogType.loss ∧ e₂.amount = some (-a) := by
  obtain ⟨e₁, e₂, hsb, ht1, ha1, ht2, ha2⟩ :=
    sbancatoLogs_shape ch.name (s.players.getD (nextDealerIdx s) default).name a
  refine ⟨performDealerSwitch s SwitchReason.sbancato a ch.name,
    recordHand_cw_bust_eq hamt hfind hb,
    pds_pot _ _ _ _, pds_roundActive _ _ _ _, ?_,
    pds_gameRound _ _ _ _, pds_played _ _ _ _,
    e₁, e₂, ?_, ht1, ha1, ht2, ha2⟩
  · rw [pds_currentDealerId, nextDealerIdx_eq hidx]
  · rw [pds_logs_sbancato, hsb]
    rfl

/-- Fresh two-player game with ante 0.30, used to exercise a bust. -/
def c2s0 : GameState := (initGame [r"A", r"B"] (3/10)).getD default

def c2s1 : GameState := startRound c2s0

theorem c2s1_pot : c2s1.pot = 3/5 := by
  have h0 : c2s1.pot = toCurrency (0 + toCurrency (((2:ℕ) : ℚ) * (3/10))) := rfl
  have e1 : toCurrency (((2:ℕ) : ℚ) * (3/10)) = 3/5 :=
    toCurrency_eq' _ 60 _ (by push_cast; norm_num) (by push_cast; norm_num)
      (by norm_num)
  rw [h0, e1]
  exact toCurrency_eq' _ 60 _ (by norm_num) (by norm_num) (by norm_num)

theorem claim2_bust_rotation_witness :
    ∃ s', recordHand c2s1 1 (3/5) Outcome.challengerWins = Except.ok s' ∧
      s'.pot = 0 ∧ s'.roundActive = false ∧
      s'.currentDealerId =
        some ((c2s1.players.getD ((0 + 1) % c2s1.players.length) default).id) ∧
      s'.gameRound = 1 ∧ s'.playersPlayedThisRound = [] ∧
      ∃ e₁ e₂, s'.logs = e₁ :: e₂ :: c2s1.logs ∧
        e₁.type = LogType.loss ∧ e₁.amount = some (-(3/5)) ∧
        e₂.type = LogType.loss ∧ e₂.amount = some (-(3/5)) := by
  have hb : isApproximatelyZero (toCurrency (c2s1.pot - 3/5)) := by
    rw [c2s1_pot]
    have h0 : toCurrency ((3:ℚ)/5 - 3/5) = 0 :=
      toCurrency_eq' _ 0 _ (by norm_num) (by norm_num) (by norm_num)
    rw [isApproximatelyZero, h0]
    norm_num
  exact claim2_bust_rotation c2s1 1 (3/5) ⟨1, r"B", false, 0⟩ 0 rfl (by norm_num)
    rfl rfl hb

/-- C9 (confirmed): whenever the game has a current dealer — regardless of
whether a round is active and even with a zero pot — `closeBank` prepends a
collect-kind entry for the whole pot and performs the rotation: dealer id
advances to the next player with wrap-around, the `isDealer` flag moves to
that player, and pot/roundActive/dealerRound/played reset. -/
theorem claim9_close_bank (s : GameState) (ch : Player) (i : Nat)
    (hfind : s.players.find? (fun p => decide (s.currentDealerId = some p.id))
      = some ch)
    (hidx : s.players.findIdx? (fun p => decide (s.currentDealerId = some p.id))
      = some i) :
    ∃ s', closeBank s = some s' ∧
      (∃ e, s'.logs = e :: s.logs ∧ e.type = LogType.collect ∧
        e.amount = some s.pot) ∧
      s'.pot = 0 ∧ s'.roundActive = false ∧ s'.gameRound = 1 ∧
      s'.playersPlayedThisRound = [] ∧
      s'.currentDealerId =
        some ((s.players.getD ((i + 1) % s.players.length) default).id) ∧
      s'.players = s.players.map (fun p =>
        { p with isDealer :=
            decide (p.id =
              (s.players.getD ((i + 1) % s.players.length) default).id) }) := by
  refine ⟨performDealerSwitch s SwitchReason.collect s.pot (String.mk []),
    by rw [closeBank, hfind], ⟨_, pds_logs_collect _ _ _, rfl, rfl⟩,
    pds_pot _ _ _ _, pds_roundActive _ _ _ _, pds_gameRound _ _ _ _,
    pds_played _ _ _ _, ?_, ?_⟩
  · rw [pds_currentDealerId, nextDealerIdx_eq hidx]
  · rw [pds_players, nextDealerIdx_eq hidx]

theorem claim9_close_bank_witness :
    ∃ s', closeBank c1s0 = some s' ∧
      (∃ e, s'.logs = e :: c1s0.logs ∧ e.type = LogType.collect ∧
        e.amount = some c1s0.pot) ∧
      s'.pot = 0 ∧ s'.roundActive = false ∧ s'.gameRound = 1 ∧
      s'.playersPlayedThisRound = [] ∧
      s'.currentDealerId =
        some ((c1s0.players.getD ((0 + 1) % c1s0.players.length) default).id) ∧
      s'.players = c1s0.players.map (fun p =>
        { p with isDealer :=
            decide (p.id =
              (c1s0.players.getD ((0 + 1) % c1s0.players.length) default).id) }) :=
  claim9_close_bank c1s0 ⟨0, r"A", true, 0⟩ 0 rfl rfl

/-- The per-player data every operation must preserve: id, name and the
`roundsPlayed` counter (everything except the `isDealer` flag). -/
def playerCore (p : Player) : Nat × String × Nat := (p.id, p.name, p.roundsPlayed)

theorem map_playerCore_rotation (l : List Player) (k : Nat) :
    (l.map (fun p => { p with isDealer := decide (p.id = k) })).map playerCore =
      l.map playerCore := by
  rw [List.map_map]
  rfl

/-- C10 (confirmed): `startRound`, `recordHand` (either outcome, bust or
not) and `closeBank` keep the ante and the players' ids, names, order and
`roundsPlayed` counters unchanged; the only per-player field ever written is
`isDealer`, and only by the dealer-rotation update. -/
theorem claim10_frame (s : GameState) :
    ((startRound s).ante = s.ante ∧ (startRound s).players = s.players) ∧
    (∀ cid a w s', recordHand s cid a w = Except.ok s' →
      s'.ante = s.ante ∧
      s'.players.map playerCore = s.players.map playerCore ∧
      (s'.players = s.players ∨
       s'.players = s.players.map (fun p =>
         { p with isDealer :=
             decide (p.id = (s.players.getD (nextDealerIdx s) default).id) }))) ∧
    (∀ s', closeBank s = some s' →
      s'.ante = s.ante ∧
      s'.players.map playerCore = s.players.map playerCore ∧
      s'.players = s.players.map (fun p =>
        { p with isDealer :=
            decide (p.id = (s.players.getD (nextDealerIdx s) default).id) })) := by
  refine ⟨⟨rfl, rfl⟩, ?_, ?_⟩
  · intro cid a w s' hrec
    obtain ⟨-, ch, -, -, hcase⟩ := recordHand_ok_spec hrec
    rcases hcase with ⟨-, -, hs'⟩ | ⟨-, -, -, hs'⟩ | ⟨-, hs'⟩
    · subst hs'
      exact ⟨pds_ante _ _ _ _,
        by rw [pds_players]; exact map_playerCore_rotation _ _,
        Or.inr (pds_players _ _ _ _)⟩
    · subst hs'
      exact ⟨by rw [urp_ante], by rw [urp_players], Or.inl (urp_players _ _)⟩
    · subst hs'
      exact ⟨by rw [urp_ante], by rw [urp_players], Or.inl (urp_players _ _)⟩
  · intro s' hc
    rw [closeBank_some hc]
    exact ⟨pds_ante _ _ _ _,
      by rw [pds_players]; exact map_playerCore_rotation _ _,
      pds_players _ _ _ _⟩

/-- A dealer-wins hand applied to `c1s1`, used by the C10 witness. -/
def c10s2 : GameState :=
  updateRoundProgress
    { c1s1 with
      pot := toCurrency (c1s1.pot + 2/5)
      logs := winLogEntry (Player.name ⟨1, r"B", false, 0⟩) (2/5) :: c1s1.logs }
    (Player.id ⟨1, r"B", false, 0⟩)

theorem claim10_frame_witness :
    ((startRound c1s1).ante = c1s1.ante ∧ (startRound c1s1).players = c1s1.players) ∧
    (c10s2.ante = c1s1.ante ∧
      c10s2.players.map playerCore = c1s1.players.map playerCore) ∧
    (performDealerSwitch c1s0 SwitchReason.collect c1s0.pot (String.mk [])).ante
      = c1s0.ante := by
  have hrec : recordHand c1s1 1 (2/5) Outcome.dealerWins = Except.ok c10s2 :=
    recordHand_dw_eq (by norm_num) rfl
  have hclose : closeBank c1s0 =
      some (performDealerSwitch c1s0 SwitchReason.collect c1s0.pot (String.mk [])) :=
    rfl
  refine ⟨(claim10_frame c1s1).1, ?_, ?_⟩
  · have h := (claim10_frame c1s1).2.1 1 (2/5) Outcome.dealerWins c10s2 hrec
    exact ⟨h.1, h.2.1⟩
  · exact ((claim10_frame c1s0).2.2 _ hclose).1

/-- Fresh three-player game with ante 0.20. -/
def c7s0 : GameState := (initGame [r"A", r"B", r"C"] (1/5)).getD default

def c7s1 : GameState := startRound c7s0

/-- Result of `recordHand` naming the *dealer* (player 0) as challenger: the
handler only checks that the id belongs to a known player, so it accepts the
call and adds the dealer's id to the played set. -/
def c7bad : GameState :=
  updateRoundProgress
    { c7s1 with
      pot := toCurrency (c7s1.pot + 1/5)
      logs := winLogEntry (Player.name ⟨0, r"A", true, 0⟩) (1/5) :: c7s1.logs }
    (Player.id ⟨0, r"A", true, 0⟩)

/-- C7 (corrected), counterexample: a reachable state whose played set
contains the current dealer's id — `recordHand` with `challengerId` equal to
the dealer's id is accepted and records the dealer as having played. -/
theorem claim7_counterexample :
    Reach c7bad ∧ c7bad.currentDealerId = some 0 ∧
    0 ∈ c7bad.playersPlayedThisRound := by
  have hrec : recordHand c7s1 0 (1/5) Outcome.dealerWins = Except.ok c7bad :=
    recordHand_dw_eq (by norm_num) rfl
  exact ⟨Reach.record c7s1 0 (1/5) Outcome.dealerWins c7bad
    (Reach.start c7s0 (Reach.init [r"A", r"B", r"C"] (1/5) c7s0 (by norm_num) rfl))
    hrec, rfl, by decide⟩

/-- C7 (amended): the size bound holds unconditionally — in every reachable
state `playersPlayedThisRound` has at most `players.length - 1` entries —
but the subset property ("only non-dealer ids") holds only for runs in which
`recordHand` is never called with the dealer's id (the discipline the
presentation layer's challenger selector enforces); the handler itself does
not reject a dealer challenger-id (see the counterexample). -/
theorem claim7_played_invariant :
    (∀ s, Reach s →
      s.playersPlayedThisRound.length ≤ s.players.length - 1) ∧
    (∀ s, ReachND s → ∀ c ∈ s.playersPlayedThisRound,
      s.currentDealerId ≠ some c ∧ c ∈ s.players.map Player.id) := by
  constructor
  · intro s h
    induction h with
    | init names ante s hante hinit =>
      obtain ⟨-, -, hpl, -⟩ := initGame_some hinit
      rw [hpl]
      simp
    | start s hr ih =>
      rw [startRound_played, startRound_players]
      exact ih
    | record s cid a w s' hr hrec ih =>
      obtain ⟨-, ch, -, -, hcase⟩ := recordHand_ok_spec hrec
      rcases hcase with ⟨-, -, hs'⟩ | ⟨-, -, -, hs'⟩ | ⟨-, hs'⟩
      · rw [hs', pds_played]
        simp
      · rw [hs', urp_players]
        exact urp_played_length_le _ _
      · rw [hs', urp_players]
        exact urp_played_length_le _ _
    | close s s' hr hc ih =>
      rw [closeBank_some hc, pds_played]
      simp
  · intro s h
    induction h with
    | init names ante s hante hinit =>
      obtain ⟨-, -, hpl, -⟩ := initGame_some hinit
      rw [hpl]
      intro c hc
      exact absurd hc (List.not_mem_nil c)
    | start s hr ih =>
      intro c hc
      rw [startRound_played] at hc
      rw [startRound_currentDealerId, startRound_players]
      exact ih c hc
    | record s cid a w s' hr hnd hrec ih =>
      obtain ⟨-, ch, hfind, hchid, hcase⟩ := recordHand_ok_spec hrec
      have hmem : cid ∈ s.players.map Player.id :=
        List.mem_map.mpr ⟨ch, List.mem_of_find?_eq_some hfind, hchid⟩
      rcases hcase with ⟨-, -, hs'⟩ | ⟨-, -, -, hs'⟩ | ⟨-, hs'⟩
      · rw [hs', pds_played]
        intro c hc
        exact absurd hc (List.not_mem_nil c)
      · subst hs'
        intro c hc
        rw [urp_currentDealerId, urp_players]
        rcases urp_played_mem hc with hin | heq
        · exact ih c hin
        · subst heq
          exact ⟨hnd, hmem⟩
      · subst hs'
        intro c hc
        rw [urp_currentDealerId, urp_players]
        rcases urp_played_mem hc with hin | heq
        · exact ih c hin
        · subst heq
          exact ⟨hnd, hmem⟩
    | close s s' hr hc ih =>
      rw [closeBank_some hc, pds_played]
      intro c hcm
      exact absurd hcm (List.not_mem_nil c)

/-- A legitimate (non-dealer) hand against `c7s1`, for the C7 witness. -/
def c7nd : GameState :=
  updateRoundProgress
    { c7s1 with
      pot := toCurrency (c7s1.pot + 1/5)
      logs := winLogEntry (Player.name ⟨1, r"B", false, 0⟩) (1/5) :: c7s1.logs }
    (Player.id ⟨1, r"B", false, 0⟩)

theorem claim7_played_invariant_witness :
    (c1s0.playersPlayedThisRound.length ≤ c1s0.players.length - 1) ∧
    (c7nd.currentDealerId ≠ some 1 ∧ 1 ∈ c7nd.players.map Player.id) := by
  have hrec : recordHand c7s1 1 (1/5) Outcome.dealerWins = Except.ok c7nd :=
    recordHand_dw_eq (by norm_num) rfl
  exact ⟨claim7_played_invariant.1 c1s0
      (Reach.init [r"A", r"B"] (1/2) c1s0 (by norm_num) rfl),
    claim7_played_invariant.2 c7nd
      (ReachND.record c7s1 1 (1/5) Outcome.dealerWins c7nd
        (ReachND.start c7s0
          (ReachND.init [r"A", r"B", r"C"] (1/5) c7s0 (by norm_num) rfl))
        (by decide) hrec) 1 (by decide)⟩

/-- C8 (confirmed): a non-bust challenger win of `a` followed immediately by
a dealer win of the same `a` returns the pot to within 0.01 of its prior
value (each `toCurrency` rounding moves the value by at most half a cent). -/
theorem claim8_conservation (s : GameState) (cid cid' : Nat) (a : ℚ)
    (s₁ s₂ : GameState) (hra : s.roundActive = true)
    (h1 : recordHand s cid a Outcome.challengerWins = Except.ok s₁)
    (hnb : s₁.roundActive = true)
    (h2 : recordHand s₁ cid' a Outcome.dealerWins = Except.ok s₂) :
    |s₂.pot - s.pot| ≤ 1/100 := by
  obtain ⟨-, ch, -, -, hcase⟩ := recordHand_ok_spec h1
  rcases hcase with ⟨-, -, hs₁⟩ | ⟨-, -, -, hs₁⟩ | ⟨hw, -⟩
  · rw [hs₁, pds_roundActive] at hnb
    cases hnb
  · have hp1 : s₁.pot = toCurrency (s.pot - a) := by rw [hs₁, urp_pot]
    obtain ⟨-, ch', -, -, hcase'⟩ := recordHand_ok_spec h2
    rcases hcase' with ⟨hw', -, -⟩ | ⟨hw', -, -, -⟩ | ⟨-, hs₂⟩
    · cases hw'
    · cases hw'
    · have hp2 : s₂.pot = toCurrency (s₁.pot + a) := by rw [hs₂, urp_pot]
      rw [hp2, hp1]
      have hA := toCurrency_le (s.pot - a)
      have hB := lt_toCurrency (s.pot - a)
      have hC := toCurrency_le (toCurrency (s.pot - a) + a)
      have hD := lt_toCurrency (toCurrency (s.pot - a) + a)
      rw [abs_le]
      constructor <;> linarith
  · cases hw

/-- Intermediate state of the C8 witness: challenger wins 0.40 of the 1.00
pot. -/
def c8s1 : GameState :=
  updateRoundProgress
    { c1s1 with
      pot := toCurrency (c1s1.pot - 2/5)
      logs := lossLogEntry (Player.name ⟨1, r"B", false, 0⟩) (2/5) :: c1s1.logs }
    (Player.id ⟨1, r"B", false, 0⟩)

/-- Final state of the C8 witness: the dealer wins the same 0.40 back. -/
def c8s2 : GameState :=
  updateRoundProgress
    { c8s1 with
      pot := toCurrency (c8s1.pot + 2/5)
      logs := winLogEntry (Player.name ⟨1, r"B", false, 0⟩) (2/5) :: c8s1.logs }
    (Player.id ⟨1, r"B", false, 0⟩)

theorem claim8_conservation_witness : |c8s2.pot - c1s1.pot| ≤ 1/100 := by
  have hrem : toCurrency (c1s1.pot - 2/5) = 3/5 := by
    rw [c1s1_pot]
    exact toCurrency_eq' _ 60 _ (by norm_num) (by norm_num) (by norm_num)
  have hnbz : ¬ isApproximatelyZero (toCurrency (c1s1.pot - 2/5)) := by
    rw [hrem]
    simp only [isApproximatelyZero, abs_lt, not_and_or, not_lt]
    right; norm_num
  have hpotcheck : ¬ (1/100 : ℚ) < 2/5 - c1s1.pot := by
    rw [c1s1_pot]; norm_num
  have h1 : recordHand c1s1 1 (2/5) Outcome.challengerWins = Except.ok c8s1 :=
    recordHand_cw_nobust_eq (by norm_num) hpotcheck rfl hnbz
  have h2 : recordHand c8s1 1 (2/5) Outcome.dealerWins = Except.ok c8s2 :=
    recordHand_dw_eq (by norm_num) rfl
  exact claim8_conservation c1s1 1 1 (2/5) c8s1 c8s2 rfl h1 rfl h2

/-! ### C4: orbit completion -/

/-- A successful non-bust hand is exactly `updateRoundProgress` applied to
the state with updated pot and log. -/
theorem recordHand_ok_nb {s : GameState} {cid : Nat} {a : ℚ} {w : Outcome}
    {s' : GameState} (h : recordHand s cid a w = Except.ok s')
    (hra' : s'.roundActive = true) (hra : s.roundActive = true) :
    ∃ t : GameState, t.playersPlayedThisRound = s.playersPlayedThisRound ∧
      t.players = s.players ∧ t.gameRound = s.gameRound ∧
      t.roundActive = true ∧ s' = updateRoundProgress t cid := by
  obtain ⟨-, ch, -, -, hcase⟩ := recordHand_ok_spec h
  rcases hcase with ⟨-, -, hs'⟩ | ⟨-, -, -, hs'⟩ | ⟨-, hs'⟩
  · rw [hs', pds_roundActive] at hra'
    cases hra'
  · exact ⟨{ s with pot := toCurrency (s.pot - a)
                    logs := lossLogEntry ch.name a :: s.logs },
      rfl, rfl, rfl, hra, hs'⟩
  · exact ⟨{ s with pot := toCurrency (s.pot + a)
                    logs := winLogEntry ch.name a :: s.logs },
      rfl, rfl, rfl, hra, hs'⟩

/-- Core induction for orbit completion: running a list of accepted non-bust
hands whose (distinct) challenger ids are fresh and exactly fill the orbit
bumps `gameRound` once, clears the played set and tops the log with the
orbit announcement. -/
theorem runNB_orbit (calls : List Call) :
    ∀ s s'' : GameState, runNB s calls = some s'' → s.roundActive = true →
    calls ≠ [] → (∀ c ∈ calls, c.cid ∉ s.playersPlayedThisRound) →
    (calls.map Call.cid).Nodup →
    s.playersPlayedThisRound.length + calls.length = s.players.length - 1 →
    s''.gameRound = s.gameRound + 1 ∧ s''.playersPlayedThisRound = [] ∧
    s''.logs.head? = some (orbitLog (s.gameRound + 1)) := by
  induction calls with
  | nil =>
    intro s s'' _ _ hne _ _ _
    exact absurd rfl hne
  | cons c cs ih =>
    intro s s'' hrun hra _ hfresh hnd hlen
    cases hrec : recordHand s c.cid c.amount c.outcome with
    | error e =>
      simp only [runNB, hrec] at hrun
      exact Option.noConfusion hrun
    | ok s₁ =>
      simp only [runNB, hrec] at hrun
      by_cases hra1 : s₁.roundActive = true
      · rw [if_pos hra1] at hrun
        obtain ⟨t, htp, htpl, htg, htra, hs₁⟩ := recordHand_ok_nb hrec hra1 hra
        have hfreshc : c.cid ∉ t.playersPlayedThisRound := by
          rw [htp]
          exact hfresh c (List.mem_cons_self c cs)
        cases cs with
        | nil =>
          simp only [runNB, Option.some.injEq] at hrun
          have htrig : t.players.length - 1 ≤
              t.playersPlayedThisRound.length + 1 := by
            rw [htp, htpl]
            simp only [List.length_cons, List.length_nil] at hlen
            omega
          rw [← hrun, hs₁, urp_fresh_trigger hfreshc htrig]
          refine ⟨?_, rfl, ?_⟩
          · show t.gameRound + 1 = s.gameRound + 1
            rw [htg]
          · show some (orbitLog (t.gameRound + 1)) =
              some (orbitLog (s.gameRound + 1))
            rw [htg]
        | cons c' cs' =>
          have hlt : t.playersPlayedThisRound.length + 1 <
              t.players.length - 1 := by
            rw [htp, htpl]
            simp only [List.length_cons] at hlen
            omega
          have hs₁eq : s₁ = { t with playersPlayedThisRound :=
              t.playersPlayedThisRound ++ [c.cid] } := by
            rw [hs₁, urp_fresh_no_trigger hfreshc hlt]
          have hheadnd : c.cid ∉ (c' :: cs').map Call.cid := by
            have h0 := hnd
            rw [List.map_cons] at h0
            exact (List.nodup_cons.mp h0).1
          have h3 : ∀ d ∈ c' :: cs', d.cid ∉ s₁.playersPlayedThisRound := by
            intro d hd
            rw [hs₁eq]
            show d.cid ∉ t.playersPlayedThisRound ++ [c.cid]
            rw [htp]
            intro hdm
            rcases List.mem_append.mp hdm with hm | hm
            · exact hfresh d (List.mem_cons_of_mem c hd) hm
            · have hdc : d.cid = c.cid := List.mem_singleton.mp hm
              exact hheadnd (by rw [← hdc]; exact List.mem_map_of_mem Call.cid hd)
          have h4 : ((c' :: cs').map Call.cid).Nodup := by
            have h0 := hnd
            rw [List.map_cons] at h0
            exact (List.nodup_cons.mp h0).2
          have h5 : s₁.playersPlayedThisRound.length + (c' :: cs').length =
              s₁.players.length - 1 := by
            rw [hs₁eq]
            show (t.playersPlayedThisRound ++ [c.cid]).length +
              (c' :: cs').length = t.players.length - 1
            rw [htp, htpl]
            simp only [List.length_append, List.length_singleton,
              List.length_cons, List.length_nil] at hlen ⊢
            omega
          have hmain := ih s₁ s'' hrun hra1 (by simp) h3 h4 h5
          have hg1 : s₁.gameRound = s.gameRound := by
            rw [hs₁eq]
            show t.gameRound = s.gameRound
            exact htg
          rw [hg1] at hmain
          exact hmain
      · rw [if_neg hra1] at hrun
        cases hrun

/-- Removing the (unique) dealer from a duplicate-free roster leaves exactly
`length - 1` players. -/
theorem filter_nondealer_length :
    ∀ (l : List Player) (d : Nat), (l.map Player.id).Nodup →
      d ∈ l.map Player.id →
      (l.filter (fun p => !decide (some d = some p.id))).length = l.length - 1 := by
  intro l
  induction l with
  | nil =>
    intro d _ hd
    simp at hd
  | cons p l ih =>
    intro d hnd hd
    rw [List.map_cons, List.nodup_cons] at hnd
    obtain ⟨hp, hndl⟩ := hnd
    rw [List.filter_cons]
    by_cases hdp : d = p.id
    · have hcond : (!decide (some d = some p.id)) = false := by
        subst hdp; simp
      rw [hcond]
      have hrest : l.filter (fun q => !decide (some d = some q.id)) = l := by
        apply List.filter_eq_self.mpr
        intro q hq
        have hne : d ≠ q.id := by
          intro he
          apply hp
          rw [← hdp, he]
          exact List.mem_map_of_mem Player.id hq
        simp [hne]
      simp only [Bool.false_eq_true, if_false, hrest, List.length_cons]
      omega
    · have hcond : (!decide (some d = some p.id)) = true := by simp [hdp]
      rw [hcond]
      have hd' : d ∈ l.map Player.id := by
        rcases List.mem_cons.mp hd with h | h
        · exact absurd h hdp
        · exact h
      have hih := ih d hndl hd'
      have hlen : 1 ≤ l.length := by
        rcases List.mem_map.mp hd' with ⟨q, hq, -⟩
        exact List.length_pos.mpr (List.ne_nil_of_mem hq)
      simp only [if_true, List.length_cons, hih]
      omega

theorem challengerIds_length {s : GameState} {d : Nat}
    (hnd : (s.players.map Player.id).Nodup)
    (hcd : s.currentDealerId = some d)
    (hd : d ∈ s.players.map Player.id) :
    (challengerIds s).length = s.players.length - 1 := by
  rw [challengerIds, List.length_map, hcd]
  exact filter_nondealer_length s.players d hnd hd

theorem challengerIds_nodup {s : GameState}
    (hnd : (s.players.map Player.id).Nodup) : (challengerIds s).Nodup := by
  rw [challengerIds]
  exact List.Nodup.sublist ((List.filter_sublist _).map _) hnd

/-- C4 (confirmed): in a game with duplicate-free player ids and a valid
dealer, starting from an empty played set with the round active, any run in
which each of the `N-1` challengers has exactly one accepted non-bust hand —
in any order — increments `gameRound` by exactly one, leaves the played set
empty and tops the log with the info entry announcing the new orbit number;
and a challenger who already played is not added twice before the orbit
completes. -/
theorem claim4_orbit_completion :
    (∀ (s : GameState) (calls : List Call) (s'' : GameState) (d : Nat),
      (s.players.map Player.id).Nodup → s.currentDealerId = some d →
      d ∈ s.players.map Player.id → 2 ≤ s.players.length →
      s.roundActive = true → s.playersPlayedThisRound = [] →
      (calls.map Call.cid).Perm (challengerIds s) →
      runNB s calls = some s'' →
      s''.gameRound = s.gameRound + 1 ∧ s''.playersPlayedThisRound = [] ∧
      s''.logs.head? = some (orbitLog (s.gameRound + 1))) ∧
    (∀ (t : GameState) (c : Nat), c ∈ t.playersPlayedThisRound →
      t.playersPlayedThisRound.length < t.players.length - 1 →
      updateRoundProgress t c = t) := by
  constructor
  · intro s calls s'' d hnd hcd hd h2n hra hpl hperm hrun
    have hcl : (challengerIds s).length = s.players.length - 1 :=
      challengerIds_length hnd hcd hd
    have hlen : calls.length = s.players.length - 1 := by
      have hpe := hperm.length_eq
      rw [List.length_map] at hpe
      rw [hpe, hcl]
    have hne : calls ≠ [] := by
      intro he
      rw [he] at hlen
      simp only [List.length_nil] at hlen
      omega
    have hndc : (calls.map Call.cid).Nodup :=
      hperm.nodup_iff.mpr (challengerIds_nodup hnd)
    have hfresh : ∀ c ∈ calls, c.cid ∉ s.playersPlayedThisRound := by
      intro c _
      rw [hpl]
      exact List.not_mem_nil _
    have hlen2 : s.playersPlayedThisRound.length + calls.length =
        s.players.length - 1 := by
      rw [hpl, hlen]
      simp
    exact runNB_orbit calls s s'' hrun hra hne hfresh hndc hlen2
  · intro t c hc hlt
    exact urp_dup hc hlt

/-- First hand of the C4 witness run: player C (id 2) loses 0.10 to the
dealer. -/
def c4m1 : GameState :=
  updateRoundProgress
    { c7s1 with
      pot := toCurrency (c7s1.pot + 1/10)
      logs := winLogEntry (Player.name ⟨2, r"C", false, 0⟩) (1/10) :: c7s1.logs }
    (Player.id ⟨2, r"C", false, 0⟩)

/-- Second hand of the C4 witness run: player B (id 1) wins 0.10, completing
the orbit. -/
def c4m2 : GameState :=
  updateRoundProgress
    { c4m1 with
      pot := toCurrency (c4m1.pot - 1/10)
      logs := lossLogEntry (Player.name ⟨1, r"B", false, 0⟩) (1/10) :: c4m1.logs }
    (Player.id ⟨1, r"B", false, 0⟩)

theorem c7s1_pot : c7s1.pot = 3/5 := by
  have h0 : c7s1.pot = toCurrency (0 + toCurrency (((3:ℕ) : ℚ) * (1/5))) := rfl
  have e1 : toCurrency (((3:ℕ) : ℚ) * (1/5)) = 3/5 :=
    toCurrency_eq' _ 60 _ (by push_cast; norm_num) (by push_cast; norm_num)
      (by norm_num)
  rw [h0, e1]
  exact toCurrency_eq' _ 60 _ (by norm_num) (by norm_num) (by norm_num)

theorem c4m1_pot : c4m1.pot = 7/10 := by
  have h0 : c4m1.pot = toCurrency (c7s1.pot + 1/10) := urp_pot _ _
  rw [h0, c7s1_pot]
  exact toCurrency_eq' _ 70 _ (by norm_num) (by norm_num) (by norm_num)

theorem claim4_orbit_completion_witness :
    (c4m2.gameRound = c7s1.gameRound + 1 ∧ c4m2.playersPlayedThisRound = [] ∧
      c4m2.logs.head? = some (orbitLog (c7s1.gameRound + 1))) ∧
    updateRoundProgress c4m1 2 = c4m1 := by
  have hstep1 : recordHand c7s1 2 (1/10) Outcome.dealerWins = Except.ok c4m1 :=
    recordHand_dw_eq (by norm_num) rfl
  have hpotcheck : ¬ (1/100 : ℚ) < 1/10 - c4m1.pot := by
    rw [c4m1_pot]; norm_num
  have hnbz : ¬ isApproximatelyZero (toCurrency (c4m1.pot - 1/10)) := by
    have hrem : toCurrency (c4m1.pot - 1/10) = 3/5 := by
      rw [c4m1_pot]
      exact toCurrency_eq' _ 60 _ (by norm_num) (by norm_num) (by norm_num)
    rw [hrem]
    simp only [isApproximatelyZero, abs_lt, not_and_or, not_lt]
    right; norm_num
  have hstep2 : recordHand c4m1 1 (1/10) Outcome.challengerWins =
      Except.ok c4m2 :=
    recordHand_cw_nobust_eq (by norm_num) hpotcheck rfl hnbz
  have hm1ra : c4m1.roundActive = true := rfl
  have hm2ra : c4m2.roundActive = true := rfl
  have hrun : runNB c7s1
      [⟨2, 1/10, Outcome.dealerWins⟩, ⟨1, 1/10, Outcome.challengerWins⟩] =
      some c4m2 := by
    simp only [runNB, hstep1, hstep2, hm1ra, hm2ra, if_true]
  exact ⟨claim4_orbit_completion.1 c7s1
      [⟨2, 1/10, Outcome.dealerWins⟩, ⟨1, 1/10, Outcome.challengerWins⟩]
      c4m2 0 (by decide) rfl (by decide) (by decide) rfl rfl
      (List.Perm.swap 1 2 []) hrun,
    claim4_orbit_completion.2 c4m1 2 (by decide) (by decide)⟩

end SetteMezzo
